import Mathlib

/-!
Verification of the OpenAI-compatible streaming reconciliation engine of
`rig-core` (`src/providers/openai/streaming.rs`,
`send_compatible_streaming_request_with_config`).

The development shallowly embeds the stream body: raw byte chunks are decoded
as UTF-8, split into lines, reassembled into `data: `-prefixed payloads,
parsed as JSON frames, and folded through the per-frame state (tool-call
accumulator, reasoning/content buffers, usage tracker), followed by the
end-of-stream flush.
-/

namespace RigStreaming

/-! ## JSON values and parsing

Modelled from the spec: `serde_json::Value` and `serde_json::from_str` are
external library calls (the `serde_json` crate is not part of this
repository).  `Json` and `jsonFromStr` below model a JSON value and a strict
whole-string JSON parse; numbers are restricted to integers, which covers
every numeric payload the protocol description in the spec uses. -/

inductive Json where
  | null
  | bool (b : Bool)
  | num (n : Int)
  | str (s : String)
  | arr (elems : List Json)
  | obj (fields : List (String × Json))

/-- JSON insignificant whitespace. -/
def jsonWs (c : Char) : Bool :=
  c = ' ' || c = '\t' || c = '\n' || c = '\r'

def skipWs (cs : List Char) : List Char :=
  cs.dropWhile jsonWs

/-- Single-character string escapes. -/
def escChar (c : Char) : Option Char :=
  if c = '"' then some '"'
  else if c = '\\' then some '\\'
  else if c = '/' then some '/'
  else if c = 'b' then some (Char.ofNat 8)
  else if c = 'f' then some (Char.ofNat 12)
  else if c = 'n' then some '\n'
  else if c = 'r' then some '\r'
  else if c = 't' then some '\t'
  else none

/-- Value of one hex digit (0-9, a-f, A-F), by code point. -/
def hexDigit (c : Char) : Option Nat :=
  let n := c.toNat
  if 48 ≤ n && n ≤ 57 then some (n - 48)
  else if 97 ≤ n && n ≤ 102 then some (n - 87)
  else if 65 ≤ n && n ≤ 70 then some (n - 55)
  else none

/-- Body of a JSON string after the opening quote: returns the decoded
characters and the input remaining after the closing quote. -/
def parseStringBody : List Char → Option (List Char × List Char)
  | [] => none
  | c :: rest =>
    if c = '"' then some ([], rest)
    else if c = '\\' then
      match rest with
      | [] => none
      | e :: rest' =>
        match escChar e with
        | some d => (parseStringBody rest').map (fun p => (d :: p.1, p.2))
        | none =>
          if e = 'u' then
            match rest' with
            | h1 :: h2 :: h3 :: h4 :: rest'' =>
              match hexDigit h1, hexDigit h2, hexDigit h3, hexDigit h4 with
              | some a, some b, some c', some d =>
                (parseStringBody rest'').map
                  (fun p => (Char.ofNat (((a * 16 + b) * 16 + c') * 16 + d) :: p.1, p.2))
              | _, _, _, _ => none
            | _ => none
          else none
    else (parseStringBody rest).map (fun p => (c :: p.1, p.2))

/-- One or more decimal digits. -/
def parseDigits (cs : List Char) : Option (Nat × List Char) :=
  let ds := cs.takeWhile Char.isDigit
  let rest := cs.dropWhile Char.isDigit
  if ds.isEmpty then none
  else some (ds.foldl (fun n c => n * 10 + (c.toNat - '0'.toNat)) 0, rest)

mutual

def parseValue : Nat → List Char → Option (Json × List Char)
  | 0, _ => none
  | fuel + 1, cs =>
    match skipWs cs with
    | [] => none
    | c :: rest =>
      if c = '"' then
        (parseStringBody rest).map (fun p => (.str ⟨p.1⟩, p.2))
      else if c = '{' then
        match skipWs rest with
        | '}' :: r => some (.obj [], r)
        | r => (parseObjMembers fuel r).map (fun p => (.obj p.1, p.2))
      else if c = '[' then
        match skipWs rest with
        | ']' :: r => some (.arr [], r)
        | r => (parseArrItems fuel r).map (fun p => (.arr p.1, p.2))
      else if c = 't' then
        match rest with
        | 'r' :: 'u' :: 'e' :: r => some (.bool true, r)
        | _ => none
      else if c = 'f' then
        match rest with
        | 'a' :: 'l' :: 's' :: 'e' :: r => some (.bool false, r)
        | _ => none
      else if c = 'n' then
        match rest with
        | 'u' :: 'l' :: 'l' :: r => some (.null, r)
        | _ => none
      else if c = '-' then
        (parseDigits rest).map (fun p => (.num (-(p.1 : Int)), p.2))
      else if c.isDigit then
        (parseDigits (c :: rest)).map (fun p => (.num (p.1 : Int), p.2))
      else none

def parseObjMembers : Nat → List Char → Option (List (String × Json) × List Char)
  | 0, _ => none
  | fuel + 1, cs =>
    match skipWs cs with
    | '"' :: rest =>
      match parseStringBody rest with
      | none => none
      | some (k, r1) =>
        match skipWs r1 with
        | ':' :: r2 =>
          match parseValue fuel r2 with
          | none => none
          | some (v, r3) =>
            match skipWs r3 with
            | ',' :: r4 =>
              (parseObjMembers fuel r4).map (fun p => ((⟨k⟩, v) :: p.1, p.2))
            | '}' :: r4 => some ([(⟨k⟩, v)], r4)
            | _ => none
        | _ => none
    | _ => none

def parseArrItems : Nat → List Char → Option (List Json × List Char)
  | 0, _ => none
  | fuel + 1, cs =>
    match parseValue fuel cs with
    | none => none
    | some (v, r1) =>
      match skipWs r1 with
      | ',' :: r2 => (parseArrItems fuel r2).map (fun p => (v :: p.1, p.2))
      | ']' :: r2 => some ([v], r2)
      | _ => none

end

/-- Model of `serde_json::from_str::<serde_json::Value>`: parse a whole string
as one JSON value (leading/trailing whitespace allowed, nothing else). -/
def jsonParse (cs : List Char) : Option Json :=
  match parseValue (cs.length + 1) cs with
  | some (v, rest) => if skipWs rest = [] then some v else none
  | none => none

def jsonFromStr (s : String) : Option Json :=
  jsonParse s.data

/-! ## Protocol frame structures

Mirrors of the `serde` structs in `src/providers/openai/streaming.rs`:
`StreamingFunction`, `StreamingToolCall`, `StreamingDelta`, `StreamingChoice`,
`StreamingCompletionChunk`. -/

/-- Modelled from the spec: `crate::providers::openai::Usage` is declared
outside the sampled sources; §3 of the spec gives its shape as
`{ prompt_tokens: integer, total_tokens: integer }`, defaulting to zero. -/
structure Usage where
  prompt_tokens : Nat
  total_tokens : Nat
deriving DecidableEq, Repr

structure StreamingFunction where
  name : Option String
  arguments : String
deriving DecidableEq, Repr

structure StreamingToolCall where
  index : Nat
  id : Option String
  function : StreamingFunction
deriving DecidableEq, Repr

structure StreamingDelta where
  content : Option String
  reasoning_content : Option String
  tool_calls : List StreamingToolCall
deriving DecidableEq, Repr

structure StreamingChoice where
  delta : StreamingDelta
deriving DecidableEq, Repr

structure StreamingCompletionChunk where
  choices : List StreamingChoice
  usage : Option Usage
deriving DecidableEq, Repr

/-! ### serde-style decoding of a frame

`decodeChunk` models `serde_json::from_str::<StreamingCompletionChunk>`:
required fields must be present with the right type; `Option` fields accept
missing or `null`; `#[serde(default)] arguments` accepts a missing field as
`""`; `tool_calls` uses `json_utils::null_or_vec` (missing or `null` become
the empty list).  Unknown fields are ignored, as derived serde does. -/

def jLookup (fields : List (String × Json)) (k : String) : Option Json :=
  match fields.find? (fun p => p.1 = k) with
  | some p => some p.2
  | none => none

/-- serde decoding of an `Option<String>` field (missing or `null` → `none`). -/
def decodeOptString (fields : List (String × Json)) (k : String) :
    Option (Option String) :=
  match jLookup fields k with
  | none => some none
  | some .null => some none
  | some (.str s) => some (some s)
  | some _ => none

def decodeNat : Json → Option Nat
  | .num n => if n < 0 then none else some n.toNat
  | _ => none

def decodeFunction : Json → Option StreamingFunction
  | .obj fs => do
    let name ← decodeOptString fs "name"
    let arguments ←
      match jLookup fs "arguments" with
      | none => some ""
      | some (.str s) => some s
      | some _ => none
    pure ⟨name, arguments⟩
  | _ => none

def decodeToolCall : Json → Option StreamingToolCall
  | .obj fs => do
    let index ← (jLookup fs "index").bind decodeNat
    let id ← decodeOptString fs "id"
    let function ← (jLookup fs "function").bind decodeFunction
    pure ⟨index, id, function⟩
  | _ => none

def decodeList {α : Type} (f : Json → Option α) : List Json → Option (List α)
  | [] => some []
  | j :: js => do
    let a ← f j
    let as ← decodeList f js
    pure (a :: as)

def decodeDelta : Json → Option StreamingDelta
  | .obj fs => do
    let content ← decodeOptString fs "content"
    let reasoning_content ← decodeOptString fs "reasoning_content"
    let tool_calls ←
      match jLookup fs "tool_calls" with
      | none => some []
      | some .null => some []
      | some (.arr js) => decodeList decodeToolCall js
      | some _ => none
    pure ⟨content, reasoning_content, tool_calls⟩
  | _ => none

def decodeChoice : Json → Option StreamingChoice
  | .obj fs => do
    let delta ← (jLookup fs "delta").bind decodeDelta
    pure ⟨delta⟩
  | _ => none

def decodeUsage : Json → Option Usage
  | .obj fs => do
    let prompt_tokens ← (jLookup fs "prompt_tokens").bind decodeNat
    let total_tokens ← (jLookup fs "total_tokens").bind decodeNat
    pure ⟨prompt_tokens, total_tokens⟩
  | _ => none

def decodeChunk : Json → Option StreamingCompletionChunk
  | .obj fs => do
    let choices ←
      match jLookup fs "choices" with
      | some (.arr js) => decodeList decodeChoice js
      | _ => none
    let usage ←
      match jLookup fs "usage" with
      | none => some none
      | some .null => some none
      | some j => (decodeUsage j).map some
    pure ⟨choices, usage⟩
  | _ => none

/-- `serde_json::from_str::<StreamingCompletionChunk>` on one payload line. -/
def parseChunk (cs : List Char) : Option StreamingCompletionChunk :=
  (jsonParse cs).bind decodeChunk

/-! ## Output events

Modelled from the spec: `streaming::RawStreamingChoice` and
`CompletionError` live outside the sampled sources; §3's `OutputEvent` gives
the shape `TextDelta | ToolCallReady | FinalResponse | Error`.  Stream items
mirror the `Result<RawStreamingChoice, CompletionError>` values yielded by
the generator. -/

inductive RawStreamingChoice where
  | message (content : String)
  | toolCall (id : String) (name : String) (arguments : Json)
  | finalResponse (usage : Usage)

/-- The two stream-level error kinds yielded inside the loop: a byte-read
failure (`CompletionError::from(reqwest::Error)`) and an invalid byte
sequence (`CompletionError::ResponseError` from `String::from_utf8`). -/
inductive ErrKind where
  | transport
  | decode
deriving DecidableEq, Repr

abbrev StreamItem := Except ErrKind RawStreamingChoice

/-! ## Per-stream state -/

/-- The tool-call accumulator `calls: HashMap<usize, (String, String, String)>`,
modelled as an association list with `HashMap::insert` overwrite semantics.
(The protocol leaves flush iteration order unspecified; the model iterates in
insertion order, the clarification §9 of the spec calls for.) -/
abbrev CallMap := List (Nat × (String × String × String))

def callInsert (m : CallMap) (k : Nat) (v : String × String × String) : CallMap :=
  match m with
  | [] => [(k, v)]
  | (k', v') :: rest =>
    if k' = k then (k, v) :: rest else (k', v') :: callInsert rest k v

def callLookup (m : CallMap) (k : Nat) : Option (String × String × String) :=
  match m with
  | [] => none
  | (k', v') :: rest => if k' = k then some v' else callLookup rest k

/-- The mutable locals of the stream body: `final_usage`, `calls`,
`reasoning_buffer`, `content_buffer`, `has_reasoning`. -/
structure St where
  final_usage : Usage
  calls : CallMap
  reasoning_buffer : String
  content_buffer : String
  has_reasoning : Bool

def initSt : St :=
  { final_usage := ⟨0, 0⟩
    calls := []
    reasoning_buffer := ""
    content_buffer := ""
    has_reasoning := false }

/-- The two configuration parameters `include_reason_in_content` and
`include_reason_in_content_tag`. -/
structure MergeConfig where
  include_reason_in_content : Bool
  tag : String

/-- Rust `str::trim().is_empty()`: true iff every char is whitespace. -/
def rustIsBlank (s : String) : Bool :=
  s.data.all Char.isWhitespace

/-- Rust `Option::is_none_or(|s| s.is_empty())` on the fragment name. -/
def isNoneOrEmpty : Option String → Bool
  | none => true
  | some s => s.isEmpty

/-! ## Tool-call fragment dispatch (the `for tool_call in &delta.tool_calls`
body).  `none` models the `expect("function name should be present for
complete tool call")` panic. -/

def applyFrag (calls : CallMap) (tc : StreamingToolCall) :
    Option (CallMap × Option StreamItem) :=
  let function := tc.function
  -- Start of tool call: name present, arguments empty
  if function.name.isSome && function.arguments.isEmpty then
    let id := tc.id.getD ""
    some (callInsert calls tc.index (id, function.name.getD "", ""), none)
  -- Part of tool call: name absent/empty, arguments non-empty
  else if isNoneOrEmpty function.name && !function.arguments.isEmpty then
    match callLookup calls tc.index with
    | none => some (calls, none)  -- never started: fragment skipped
    | some (id, name, arguments) =>
      some (callInsert calls tc.index (id, name, arguments ++ function.arguments), none)
  -- Entire tool call
  else
    match function.name with
    | none => none  -- `expect` panics
    | some name =>
      let id := tc.id.getD ""
      match jsonFromStr function.arguments with
      | none => some (calls, none)  -- arguments not valid JSON: call dropped
      | some arguments => some (calls, some (.ok (.toolCall id name arguments)))

def applyFrags (calls : CallMap) :
    List StreamingToolCall → List StreamItem × Option CallMap
  | [] => ([], some calls)
  | tc :: rest =>
    match applyFrag calls tc with
    | none => ([], none)
    | some (calls', it?) =>
      let (items, res) := applyFrags calls' rest
      (it?.toList ++ items, res)

/-- Processing of one delta (tool calls, then reasoning content, then regular
content), lines 169–224 of the source. -/
def applyDelta (cfg : MergeConfig) (st : St) (delta : StreamingDelta) :
    List StreamItem × Option St :=
  match applyFrags st.calls delta.tool_calls with
  | (items, none) => (items, none)
  | (items, some calls') =>
    let st := { st with calls := calls' }
    let st :=
      match delta.reasoning_content with
      | some reasoning =>
        { st with has_reasoning := true
                  reasoning_buffer := st.reasoning_buffer ++ reasoning }
      | none => st
    match delta.content with
    | some content =>
      if cfg.include_reason_in_content && st.has_reasoning then
        (items, some { st with content_buffer := st.content_buffer ++ content })
      else
        (items ++ [.ok (.message content)], some st)
    | none => (items, some st)

/-- Processing of one parsed frame: the first choice's delta, then the usage
snapshot. -/
def applyFrame (cfg : MergeConfig) (st : St) (data : StreamingCompletionChunk) :
    List StreamItem × Option St :=
  let (items, st?) :=
    match data.choices.head? with
    | some choice => applyDelta cfg st choice.delta
    | none => ([], some st)
  match st? with
  | none => (items, none)
  | some st =>
    match data.usage with
    | some usage => (items, some { st with final_usage := usage })
    | none => (items, some st)

def foldFrames (cfg : MergeConfig) (st : St) :
    List StreamingCompletionChunk → List StreamItem × Option St
  | [] => ([], some st)
  | f :: fs =>
    match applyFrame cfg st f with
    | (items, none) => (items, none)
    | (items, some st') =>
      let (items2, res) := foldFrames cfg st' fs
      (items ++ items2, res)

/-! ## End-of-stream flush (lines 234–279). -/

def wrapTag (tag reasoning : String) : String :=
  "<" ++ tag ++ ">\n" ++ reasoning ++ "\n</" ++ tag ++ ">\n"

/-- Buffered reasoning/content handling at the end of the stream. -/
def mergeFlush (cfg : MergeConfig) (st : St) : List StreamItem :=
  if st.has_reasoning then
    if cfg.include_reason_in_content then
      let combined :=
        (if !rustIsBlank st.reasoning_buffer then wrapTag cfg.tag st.reasoning_buffer
         else "") ++ st.content_buffer
      if !rustIsBlank combined then [.ok (.message combined)] else []
    else
      (if !rustIsBlank st.reasoning_buffer then
        [.ok (.message (wrapTag cfg.tag st.reasoning_buffer))]
       else []) ++
      (if !rustIsBlank st.content_buffer then [.ok (.message st.content_buffer)]
       else [])
  else if !rustIsBlank st.content_buffer && cfg.include_reason_in_content then
    [.ok (.message st.content_buffer)]
  else []

/-- Leftover accumulated tool calls flushed at the end of the stream. -/
def callsFlush (calls : CallMap) : List StreamItem :=
  calls.filterMap fun kv =>
    (jsonFromStr kv.2.2.2).map fun v => .ok (.toolCall kv.2.1 kv.2.2.1 v)

def finishStream (cfg : MergeConfig) (st : St) : List StreamItem :=
  mergeFlush cfg st ++ callsFlush st.calls ++
    [.ok (.finalResponse st.final_usage)]

/-- The stream body applied to a list of already-parsed frames: the loop fold
followed by the end-of-stream flush (skipped if a fragment panicked). -/
def runFrames (cfg : MergeConfig) (frames : List StreamingCompletionChunk) :
    List StreamItem :=
  match foldFrames cfg initSt frames with
  | (items, some st) => items ++ finishStream cfg st
  | (items, none) => items

/-! ## Byte chunks: UTF-8 decoding

Model of `String::from_utf8(chunk.to_vec())`: each chunk is decoded on its
own, with the strict validation of the Rust standard library (shortest-form
encodings, no surrogates, at most U+10FFFF).  Bytes are `Nat`s below 256. -/

def isCont (b : Nat) : Bool := 0x80 ≤ b && b < 0xC0

def utf8Decode : List Nat → Option (List Char)
  | [] => some []
  | b :: bs =>
    if b < 0x80 then
      (utf8Decode bs).map (Char.ofNat b :: ·)
    else if b < 0xC2 then none
    else if b < 0xE0 then
      match bs with
      | b1 :: bs' =>
        if isCont b1 then
          (utf8Decode bs').map (Char.ofNat ((b - 0xC0) * 0x40 + (b1 - 0x80)) :: ·)
        else none
      | _ => none
    else if b < 0xF0 then
      match bs with
      | b1 :: b2 :: bs' =>
        let lo1 := if b = 0xE0 then 0xA0 else 0x80
        let hi1 := if b = 0xED then 0xA0 else 0xC0
        if (lo1 ≤ b1 && b1 < hi1) && isCont b2 then
          (utf8Decode bs').map
            (Char.ofNat (((b - 0xE0) * 0x40 + (b1 - 0x80)) * 0x40 + (b2 - 0x80)) :: ·)
        else none
      | _ => none
    else if b < 0xF5 then
      match bs with
      | b1 :: b2 :: b3 :: bs' =>
        let lo1 := if b = 0xF0 then 0x90 else 0x80
        let hi1 := if b = 0xF4 then 0x90 else 0xC0
        if (lo1 ≤ b1 && b1 < hi1) && isCont b2 && isCont b3 then
          (utf8Decode bs').map
            (Char.ofNat ((((b - 0xF0) * 0x40 + (b1 - 0x80)) * 0x40 + (b2 - 0x80)) * 0x40
              + (b3 - 0x80)) :: ·)
        else none
      | _ => none
    else none

/-! ## Line splitting

Model of Rust `str::lines()`: lines are terminated by `\n` or `\r\n`; a final
segment without terminator is kept as-is (including a lone trailing `\r`); a
final empty segment after a terminator is dropped. -/

def stripCR (l : List Char) : List Char :=
  if l.getLast? = some '\r' then l.dropLast else l

def linesAux (acc : List Char) : List Char → List (List Char)
  | [] => if acc.isEmpty then [] else [acc.reverse]
  | c :: rest =>
    if c = '\n' then stripCR acc.reverse :: linesAux [] rest
    else linesAux (c :: acc) rest

def linesRust (cs : List Char) : List (List Char) :=
  linesAux [] cs

/-! ## Payload reassembly (lines 134–156)

Per physical line: a held-over partial payload is prepended verbatim and the
combination goes straight to the JSON parse; otherwise the `data: ` prefix is
required (lines without it are skipped), and a line not ending in `}` stores
its stripped payload as the new hold-over while the *original prefixed* line
is handed to the JSON parse (where it fails). -/

def stripDataTag : List Char → Option (List Char)
  | 'd' :: 'a' :: 't' :: 'a' :: ':' :: ' ' :: rest => some rest
  | _ => none

def endsWithBrace (cs : List Char) : Bool :=
  cs.getLast? = some '}'

/-- One line's partial-data bookkeeping: the new hold-over together with the
text handed to `serde_json::from_str` (`none` when the line is skipped). -/
def payloadStep (pd : Option (List Char)) (line0 : List Char) :
    Option (List Char) × Option (List Char) :=
  match pd with
  | some part => (none, some (part ++ line0))
  | none =>
    match stripDataTag line0 with
    | none => (none, none)
    | some data =>
      if !endsWithBrace line0 then (some data, some line0)
      else (none, some data)

/-- The loop state: the `partial_data` hold-over plus the frame-level state. -/
structure LoopSt where
  pd : Option (List Char)
  st : St

def initLoopSt : LoopSt := ⟨none, initSt⟩

/-- The body of `for line in text.lines()`. -/
def processLine (cfg : MergeConfig) (ls : LoopSt) (line0 : List Char) :
    List StreamItem × Option LoopSt :=
  let (pd', attempt) := payloadStep ls.pd line0
  match attempt with
  | none => ([], some ⟨pd', ls.st⟩)
  | some payload =>
    match parseChunk payload with
    | none => ([], some ⟨pd', ls.st⟩)  -- malformed frame: skipped
    | some data =>
      match applyFrame cfg ls.st data with
      | (items, none) => (items, none)
      | (items, some st') => (items, some ⟨pd', st'⟩)

def processLines (cfg : MergeConfig) (ls : LoopSt) :
    List (List Char) → List StreamItem × Option LoopSt
  | [] => ([], some ls)
  | l :: rest =>
    match processLine cfg ls l with
    | (items, none) => (items, none)
    | (items, some ls') =>
      let (items2, res) := processLines cfg ls' rest
      (items ++ items2, res)

/-! ## The chunk loop (lines 116–232) -/

/-- One raw transport item: a byte chunk, or a byte-read failure. -/
abbrev RawChunk := Except Unit (List Nat)

/-- The `while let Some(chunk_result) = stream.next().await` loop.  A
transport or decode failure yields the error and breaks (the returned state
still reaches the end-of-stream flush); a fragment panic aborts everything
(`none` state). -/
def processChunks (cfg : MergeConfig) (ls : LoopSt) :
    List RawChunk → List StreamItem × Option LoopSt
  | [] => ([], some ls)
  | .error _ :: _ => ([.error .transport], some ls)
  | .ok bytes :: rest =>
    match utf8Decode bytes with
    | none => ([.error .decode], some ls)
    | some text =>
      match processLines cfg ls (linesRust text) with
      | (items, none) => (items, none)
      | (items, some ls') =>
        let (items2, res) := processChunks cfg ls' rest
        (items ++ items2, res)

/-- The full event sequence of one stream: the chunk loop followed by the
end-of-stream flush (which is not reached if a fragment panicked). -/
def streamEvents (cfg : MergeConfig) (chunks : List RawChunk) : List StreamItem :=
  match processChunks cfg initLoopSt chunks with
  | (items, some ls) => items ++ finishStream cfg ls.st
  | (items, none) => items

/-! ## Derived views of the input used to state properties -/

/-- The decoded texts of the chunks consumed before the loop breaks. -/
def goodTexts : List RawChunk → List (List Char)
  | [] => []
  | .error _ :: _ => []
  | .ok bytes :: rest =>
    match utf8Decode bytes with
    | none => []
    | some text => text :: goodTexts rest

/-- The payload strings handed to the frame parser, over a line sequence. -/
def payloadsAux (pd : Option (List Char)) : List (List Char) → List (List Char)
  | [] => []
  | l :: ls =>
    match payloadStep pd l with
    | (pd', none) => payloadsAux pd' ls
    | (pd', some p) => p :: payloadsAux pd' ls

def framesOfLines (pd : Option (List Char)) (ls : List (List Char)) :
    List StreamingCompletionChunk :=
  (payloadsAux pd ls).filterMap parseChunk

/-- The successfully parsed frames of a raw chunk stream. -/
def framesOfStream (chunks : List RawChunk) : List StreamingCompletionChunk :=
  framesOfLines none ((goodTexts chunks).map linesRust).flatten

/-- The most recently received usage object, or the zero snapshot. -/
def lastUsageOf (chunks : List RawChunk) : Usage :=
  (((framesOfStream chunks).filterMap StreamingCompletionChunk.usage).getLast?).getD ⟨0, 0⟩

/-- The pipeline applied to already-decoded chunk texts (no transport or
decode failures): used to state chunk-boundary invariance. -/
def processTexts (cfg : MergeConfig) (ls : LoopSt) :
    List (List Char) → List StreamItem × Option LoopSt
  | [] => ([], some ls)
  | t :: ts =>
    match processLines cfg ls (linesRust t) with
    | (items, none) => (items, none)
    | (items, some ls') =>
      let (items2, res) := processTexts cfg ls' ts
      (items ++ items2, res)

def runTexts (cfg : MergeConfig) (texts : List (List Char)) : List StreamItem :=
  match processTexts cfg initLoopSt texts with
  | (items, some ls) => items ++ finishStream cfg ls.st
  | (items, none) => items

/-- ASCII text to bytes, for concrete protocol inputs. -/
def asciiBytes (s : String) : List Nat :=
  s.data.map Char.toNat

def isFinalItem : StreamItem → Bool
  | .ok (.finalResponse _) => true
  | _ => false

/-! ## Frame constructors used in the statements -/

/-- A frame carrying only reasoning content. -/
def reasonFrame (r : String) : StreamingCompletionChunk :=
  ⟨[⟨⟨none, some r, []⟩⟩], none⟩

/-- A frame carrying only answer content. -/
def contentFrame (c : String) : StreamingCompletionChunk :=
  ⟨[⟨⟨some c, none, []⟩⟩], none⟩

/-- A frame whose delta starts a tool call at `idx` (name present, empty
arguments). -/
def startFrame (idx : Nat) (id? : Option String) (n : String) :
    StreamingCompletionChunk :=
  ⟨[⟨⟨none, none, [⟨idx, id?, ⟨some n, ""⟩⟩]⟩⟩], none⟩

/-- A frame whose delta continues a tool call at `idx` (no name, an
arguments piece). -/
def contToolFrame (idx : Nat) (p : String) : StreamingCompletionChunk :=
  ⟨[⟨⟨none, none, [⟨idx, none, ⟨none, p⟩⟩]⟩⟩], none⟩

/-- A frame whose delta carries an entire tool call in one fragment (name and
arguments both present). -/
def atomicFrame (idx : Nat) (id? : Option String) (n a : String) :
    StreamingCompletionChunk :=
  ⟨[⟨⟨none, none, [⟨idx, id?, ⟨some n, a⟩⟩]⟩⟩], none⟩

/-- A frame carrying only a usage snapshot. -/
def usageFrame (u : Usage) : StreamingCompletionChunk :=
  ⟨[], some u⟩

/-- Reasoning/content frames as a mixed sequence. -/
def mkRC : Sum String String → StreamingCompletionChunk
  | .inl r => reasonFrame r
  | .inr c => contentFrame c

/-- The accumulated reasoning of a mixed sequence. -/
def concatLefts : List (Sum String String) → String
  | [] => ""
  | .inl r :: fs => r ++ concatLefts fs
  | .inr _ :: fs => concatLefts fs

/-- The accumulated answer content of a mixed sequence. -/
def concatRights : List (Sum String String) → String
  | [] => ""
  | .inl _ :: fs => concatRights fs
  | .inr c :: fs => c ++ concatRights fs

def concatAll : List String → String
  | [] => ""
  | s :: ss => s ++ concatAll ss

end RigStreaming

namespace RigStreaming

/-! # Supporting lemmas -/

theorem strAppend_assoc (a b c : String) : a ++ b ++ c = a ++ (b ++ c) := by
  apply String.ext
  simp [String.data_append, List.append_assoc]

theorem rustIsBlank_append (a b : String) :
    rustIsBlank (a ++ b) = (rustIsBlank a && rustIsBlank b) := by
  simp [rustIsBlank, String.data_append, List.all_append]

theorem rustIsBlank_wrap (t r : String) : rustIsBlank (wrapTag t r) = false := by
  have h : rustIsBlank "<" = false := rfl
  simp [wrapTag, rustIsBlank_append, h]

theorem rustIsBlank_wrap_append (t r c : String) :
    rustIsBlank (wrapTag t r ++ c) = false := by
  simp [rustIsBlank_append, rustIsBlank_wrap]

/-! ## Computation lemmas for single-purpose frames -/

theorem applyFrame_reason (cfg : MergeConfig) (st : St) (r : String) :
    applyFrame cfg st (reasonFrame r) =
      ([], some { st with has_reasoning := true
                          reasoning_buffer := st.reasoning_buffer ++ r }) := rfl

theorem applyFrame_content (cfg : MergeConfig) (st : St) (c : String) :
    applyFrame cfg st (contentFrame c) =
      (if cfg.include_reason_in_content && st.has_reasoning then
        ([], some { st with content_buffer := st.content_buffer ++ c })
       else ([.ok (.message c)], some st)) := by
  by_cases h : cfg.include_reason_in_content && st.has_reasoning <;>
    simp [applyFrame, applyDelta, applyFrags, contentFrame, h]

theorem applyFrame_usage (cfg : MergeConfig) (st : St) (u : Usage) :
    applyFrame cfg st (usageFrame u) = ([], some { st with final_usage := u }) := rfl

theorem applyFrame_start (cfg : MergeConfig) (st : St) (idx : Nat)
    (id? : Option String) (n : String) :
    applyFrame cfg st (startFrame idx id? n) =
      ([], some { st with calls := callInsert st.calls idx (id?.getD "", n, "") }) := rfl

theorem applyFrame_cont (cfg : MergeConfig) (st : St) (idx : Nat) (p : String)
    (hp : p.isEmpty = false) :
    applyFrame cfg st (contToolFrame idx p) =
      (match callLookup st.calls idx with
       | none => ([], some st)
       | some (id, name, arguments) =>
         ([], some { st with calls := callInsert st.calls idx (id, name, arguments ++ p) })) := by
  cases h : callLookup st.calls idx <;>
    simp [applyFrame, applyDelta, applyFrags, applyFrag, contToolFrame, isNoneOrEmpty, hp, h]

theorem applyFrame_atomic (cfg : MergeConfig) (st : St) (idx : Nat)
    (id? : Option String) (n a : String)
    (hn : n.isEmpty = false) (ha : a.isEmpty = false) :
    applyFrame cfg st (atomicFrame idx id? n a) =
      (match jsonFromStr a with
       | none => ([], some st)
       | some v => ([.ok (.toolCall (id?.getD "") n v)], some st)) := by
  cases h : jsonFromStr a <;>
    simp [applyFrame, applyDelta, applyFrags, applyFrag, atomicFrame, isNoneOrEmpty, hn, ha, h]

theorem foldFrames_nil (cfg : MergeConfig) (st : St) :
    foldFrames cfg st [] = ([], some st) := rfl

theorem foldFrames_cons_ok (cfg : MergeConfig) (st : St)
    (f : StreamingCompletionChunk) (fs : List StreamingCompletionChunk)
    (items : List StreamItem) (st' : St)
    (h : applyFrame cfg st f = (items, some st')) :
    foldFrames cfg st (f :: fs) =
      (items ++ (foldFrames cfg st' fs).1, (foldFrames cfg st' fs).2) := by
  simp only [foldFrames, h]

theorem foldFrames_cons_panic (cfg : MergeConfig) (st : St)
    (f : StreamingCompletionChunk) (fs : List StreamingCompletionChunk)
    (items : List StreamItem)
    (h : applyFrame cfg st f = (items, none)) :
    foldFrames cfg st (f :: fs) = (items, none) := by
  simp only [foldFrames, h]

/-- Once reasoning has been observed, every later reasoning/content frame is
buffered (merge enabled), and no event is emitted by the loop. -/
theorem foldFrames_rc_buffered (t : String) (fs : List (Sum String String)) :
    ∀ st : St, st.has_reasoning = true →
    foldFrames ⟨true, t⟩ st (fs.map mkRC) =
      ([], some { st with
        reasoning_buffer := st.reasoning_buffer ++ concatLefts fs
        content_buffer := st.content_buffer ++ concatRights fs }) := by
  induction fs with
  | nil =>
    intro st h
    simp [foldFrames_nil, concatLefts, concatRights, String.append_empty]
  | cons f fs ih =>
    intro st h
    cases f with
    | inl r =>
      rw [List.map_cons]
      show foldFrames ⟨true, t⟩ st (reasonFrame r :: fs.map mkRC) = _
      rw [foldFrames_cons_ok _ _ _ _ _ _ (applyFrame_reason _ _ r),
        ih { st with has_reasoning := true
                     reasoning_buffer := st.reasoning_buffer ++ r } rfl]
      simp [concatLefts, concatRights, strAppend_assoc, h]
    | inr c =>
      rw [List.map_cons]
      show foldFrames ⟨true, t⟩ st (contentFrame c :: fs.map mkRC) = _
      have hc : applyFrame ⟨true, t⟩ st (contentFrame c) =
          ([], some { st with content_buffer := st.content_buffer ++ c }) := by
        rw [applyFrame_content]; simp [h]
      rw [foldFrames_cons_ok _ _ _ _ _ _ hc,
        ih { st with content_buffer := st.content_buffer ++ c } (by simp [h])]
      simp [concatLefts, concatRights, strAppend_assoc, h]

theorem rustIsBlank_empty : rustIsBlank "" = true := rfl

/-! # Claim C5 -/

/-- C5: with `include_reason_in_content = true` and tag `"think"`, for a
stream in which reasoning is observed and all answer content arrives after
reasoning has been observed (an arbitrary mixed sequence of reasoning and
content frames in which every content frame is preceded by some reasoning
frame, with the accumulated reasoning non-blank), exactly one `TextDelta` is
emitted, at stream end, equal to the wrapped reasoning block followed by the
accumulated content — `"<think>\nR\n</think>\nC"` — and no earlier
`TextDelta` carries the content. -/
theorem C5_merged_reasoning_single_text_delta
    (fs : List (Sum String String))
    (hR : rustIsBlank (concatLefts fs) = false)
    (hOrder : ∀ c pre post, fs = pre ++ Sum.inr c :: post → ∃ r, Sum.inl r ∈ pre) :
    runFrames ⟨true, "think"⟩ (fs.map mkRC) =
      [.ok (.message (wrapTag "think" (concatLefts fs) ++ concatRights fs)),
       .ok (.finalResponse ⟨0, 0⟩)] := by
  cases fs with
  | nil => exact absurd hR (by simp [concatLefts, rustIsBlank])
  | cons f fs' =>
    cases f with
    | inr c =>
      obtain ⟨r, hmem⟩ := hOrder c [] fs' rfl
      exact absurd hmem (List.not_mem_nil _)
    | inl r =>
      have hR' : rustIsBlank (r ++ concatLefts fs') = false := by
        simpa [concatLefts] using hR
      have hfold : foldFrames ⟨true, "think"⟩ initSt ((Sum.inl r :: fs').map mkRC) =
          ([], some ⟨⟨0, 0⟩, [], r ++ concatLefts fs', concatRights fs', true⟩) := by
        rw [List.map_cons]
        show foldFrames _ _ (reasonFrame r :: fs'.map mkRC) = _
        rw [foldFrames_cons_ok _ _ _ _ _ _ (applyFrame_reason _ _ r),
          foldFrames_rc_buffered "think" fs'
            { initSt with has_reasoning := true
                          reasoning_buffer := initSt.reasoning_buffer ++ r } rfl]
        simp [initSt, String.empty_append]
      unfold runFrames
      rw [hfold]
      simp [finishStream, mergeFlush, callsFlush, hR', rustIsBlank_wrap_append,
        concatLefts, concatRights]

/-- Witness for C5 at the spec's concrete instance: reasoning `"R"` then
content `"C"`. -/
theorem C5_witness :
    rustIsBlank (concatLefts [Sum.inl "R", Sum.inr "C"]) = false ∧
    runFrames ⟨true, "think"⟩ ([Sum.inl "R", Sum.inr "C"].map mkRC) =
      [.ok (.message "<think>\nR\n</think>\nC"), .ok (.finalResponse ⟨0, 0⟩)] := by
  refine ⟨by decide, ?_⟩
  have h := C5_merged_reasoning_single_text_delta [Sum.inl "R", Sum.inr "C"]
    (by decide)
    (by
      intro c pre post hEq
      cases pre with
      | nil => injection hEq with h1 _; simp at h1
      | cons a pre' =>
        injection hEq with h1 _
        exact ⟨"R", by rw [← h1]; exact List.mem_cons_self _ _⟩)
  have e : wrapTag "think" (concatLefts [Sum.inl "R", Sum.inr "C"]) ++
      concatRights [Sum.inl "R", Sum.inr "C"] = "<think>\nR\n</think>\nC" := rfl
  rw [e] at h
  exact h

/-! # Claim C1 -/

/-- C1 counterexample: with `include_reason_in_content = false`, the stream
`[reasoning "R", content "C"]` emits the content `TextDelta` *first* and the
wrapped reasoning block *last*; the claimed order — the wrapped reasoning
first and the content not emitted as an earlier `TextDelta` — is false. -/
theorem C1_counterexample :
    runFrames ⟨false, "think"⟩ [reasonFrame "R", contentFrame "C"] =
      [.ok (.message "C"), .ok (.message "<think>\nR\n</think>\n"),
       .ok (.finalResponse ⟨0, 0⟩)] ∧
    ("C" : String) ≠ "<think>\nR\n</think>\n" := ⟨rfl, by decide⟩

/-- C1 (amended): with `include_reason_in_content = false`, answer content is
emitted immediately as a `TextDelta` when its frame arrives, and at stream
end the wrapped reasoning block is emitted as one final `TextDelta` (reasoning
non-blank); the content buffer stays empty, so no second buffered-content
event follows — content first, reasoning last. -/
theorem C1_amended_disabled_merge_order (R C : String)
    (hR : rustIsBlank R = false) :
    runFrames ⟨false, "think"⟩ [reasonFrame R, contentFrame C] =
      [.ok (.message C), .ok (.message (wrapTag "think" R)),
       .ok (.finalResponse ⟨0, 0⟩)] := by
  have hc : applyFrame ⟨false, "think"⟩
      { initSt with has_reasoning := true
                    reasoning_buffer := initSt.reasoning_buffer ++ R }
      (contentFrame C) =
      ([.ok (.message C)],
       some { initSt with has_reasoning := true
                          reasoning_buffer := initSt.reasoning_buffer ++ R }) := by
    rw [applyFrame_content]; simp
  unfold runFrames
  rw [foldFrames_cons_ok _ _ _ _ _ _ (applyFrame_reason _ _ R),
    foldFrames_cons_ok _ _ _ _ _ _ hc, foldFrames_nil]
  simp [finishStream, mergeFlush, callsFlush, initSt, String.empty_append, hR,
    rustIsBlank_empty]

/-- Witness for C1's amended statement at `R = "R"`, `C = "C"`. -/
theorem C1_witness :
    rustIsBlank "R" = false ∧
    runFrames ⟨false, "think"⟩ [reasonFrame "R", contentFrame "C"] =
      [.ok (.message "C"), .ok (.message "<think>\nR\n</think>\n"),
       .ok (.finalResponse ⟨0, 0⟩)] := by
  refine ⟨by decide, ?_⟩
  have h := C1_amended_disabled_merge_order "R" "C" (by decide)
  have e : wrapTag "think" "R" = "<think>\nR\n</think>\n" := rfl
  rw [e] at h
  exact h

/-! # Accumulator map lemmas -/

theorem callLookup_callInsert (m : CallMap) (k : Nat) (v : String × String × String) :
    callLookup (callInsert m k v) k = some v := by
  induction m with
  | nil => simp [callInsert, callLookup]
  | cons kv m ih =>
    by_cases h : kv.1 = k <;> simp [callInsert, callLookup, h, ih]

theorem callInsert_callInsert (m : CallMap) (k : Nat)
    (v1 v2 : String × String × String) :
    callInsert (callInsert m k v1) k v2 = callInsert m k v2 := by
  induction m with
  | nil => simp [callInsert]
  | cons kv m ih =>
    by_cases h : kv.1 = k <;> simp [callInsert, h, ih]

theorem callInsert_of_callLookup (m : CallMap) (k : Nat)
    (v : String × String × String) (h : callLookup m k = some v) :
    callInsert m k v = m := by
  induction m with
  | nil => simp [callLookup] at h
  | cons kv m ih =>
    obtain ⟨k1, v1⟩ := kv
    by_cases hk : k1 = k
    · subst hk
      simp [callLookup] at h
      simp [callInsert, h]
    · simp [callLookup, hk] at h
      simp [callInsert, hk, ih h]

/-- Folding a run of continuation fragments for slot `idx` appends their
pieces, in arrival order, to the accumulated arguments of that slot. -/
theorem foldFrames_cont_append (cfg : MergeConfig) (idx : Nat)
    (pieces : List String) :
    ∀ (st : St) (id name acc : String),
    (∀ p ∈ pieces, p.isEmpty = false) →
    callLookup st.calls idx = some (id, name, acc) →
    foldFrames cfg st (pieces.map (contToolFrame idx)) =
      ([], some { st with
        calls := callInsert st.calls idx (id, name, acc ++ concatAll pieces) }) := by
  induction pieces with
  | nil =>
    intro st id name acc _ hlk
    simp [foldFrames_nil, concatAll, String.append_empty,
      callInsert_of_callLookup st.calls idx _ hlk]
  | cons p ps ih =>
    intro st id name acc hp hlk
    rw [List.map_cons]
    have hstep : applyFrame cfg st (contToolFrame idx p) =
        ([], some { st with calls := callInsert st.calls idx (id, name, acc ++ p) }) := by
      rw [applyFrame_cont cfg st idx p (hp p (by simp)), hlk]
    rw [foldFrames_cons_ok _ _ _ _ _ _ hstep,
      ih { st with calls := callInsert st.calls idx (id, name, acc ++ p) }
        id name (acc ++ p) (fun q hq => hp q (by simp [hq]))
        (by simp [callLookup_callInsert])]
    simp [callInsert_callInsert, strAppend_assoc, concatAll]

/-! # Claim C6 -/

/-- C6: a tool-call slot that receives a start fragment (a name, empty
arguments) followed by continuation fragments whose argument pieces
concatenate in arrival order to a valid JSON string, with no further
fragments, yields at stream end exactly one `ToolCallReady` with that name
and the parsed concatenated arguments. -/
theorem C6_tool_call_reassembly (cfg : MergeConfig) (idx : Nat)
    (id? : Option String) (n : String) (pieces : List String) (v : Json)
    (hp : ∀ p ∈ pieces, p.isEmpty = false)
    (hv : jsonFromStr (concatAll pieces) = some v) :
    runFrames cfg (startFrame idx id? n :: pieces.map (contToolFrame idx)) =
      [.ok (.toolCall (id?.getD "") n v), .ok (.finalResponse ⟨0, 0⟩)] := by
  unfold runFrames
  rw [foldFrames_cons_ok _ _ _ _ _ _ (applyFrame_start cfg initSt idx id? n),
    foldFrames_cont_append cfg idx pieces _ (id?.getD "") n "" hp
      (by simp [callLookup_callInsert])]
  simp [callInsert_callInsert, String.empty_append, finishStream, mergeFlush,
    callsFlush, initSt, callInsert, rustIsBlank_empty, hv]

/-- Witness for C6 at the spec's instance: `get_weather` with pieces
`{"loc` and `":"NYC"}`. -/
theorem C6_witness :
    jsonFromStr (concatAll ["\x7b\"loc", "\":\"NYC\"\x7d"]) =
      some (.obj [("loc", .str "NYC")]) ∧
    runFrames ⟨true, "think"⟩
      (startFrame 0 none "get_weather" ::
        ["\x7b\"loc", "\":\"NYC\"\x7d"].map (contToolFrame 0)) =
      [.ok (.toolCall "" "get_weather" (.obj [("loc", .str "NYC")])),
       .ok (.finalResponse ⟨0, 0⟩)] := by
  refine ⟨rfl, ?_⟩
  exact C6_tool_call_reassembly ⟨true, "think"⟩ 0 none "get_weather"
    ["\x7b\"loc", "\":\"NYC\"\x7d"] (.obj [("loc", .str "NYC")]) (by decide) rfl

/-! # Claim C7 -/

/-- C7 counterexample: after a complete tool call is emitted atomically for
slot 0 (first conjunct: the `ToolCallReady` is produced), a subsequent start
fragment *does* re-enter slot 0 in the accumulator map (second conjunct),
refuting "that slot is never re-entered ... no subsequent fragment creates or
updates an entry at that slot". -/
theorem C7_counterexample :
    (foldFrames ⟨true, "think"⟩ initSt
        [atomicFrame 0 (some "idA") "f" "\x7b\x7d",
         startFrame 0 (some "idB") "g"]).1 =
      [.ok (.toolCall "idA" "f" (.obj []))] ∧
    ((foldFrames ⟨true, "think"⟩ initSt
        [atomicFrame 0 (some "idA") "f" "\x7b\x7d",
         startFrame 0 (some "idB") "g"]).2).map (fun st => callLookup st.calls 0) =
      some (some ("idB", "g", "")) := ⟨rfl, rfl⟩

/-- C7 (amended): after a complete tool call has been emitted atomically for
a slot, a continuation fragment for that slot is discarded (it does not
create an entry; the map stays empty), but a subsequent *start* fragment does
re-enter the slot — last start wins, per the error-tolerant overwrite rule. -/
theorem C7_amended_slot_reentry (cfg : MergeConfig) (idx : Nat)
    (id1? : Option String) (n1 a : String) (v : Json) (id2? : Option String)
    (n2 p : String)
    (hn1 : n1.isEmpty = false) (ha : a.isEmpty = false)
    (hv : jsonFromStr a = some v) (hp : p.isEmpty = false) :
    foldFrames cfg initSt [atomicFrame idx id1? n1 a, contToolFrame idx p] =
      ([.ok (.toolCall (id1?.getD "") n1 v)], some initSt) ∧
    foldFrames cfg initSt [atomicFrame idx id1? n1 a, startFrame idx id2? n2] =
      ([.ok (.toolCall (id1?.getD "") n1 v)],
       some { initSt with calls := [(idx, (id2?.getD "", n2, ""))] }) := by
  have hat : applyFrame cfg initSt (atomicFrame idx id1? n1 a) =
      ([.ok (.toolCall (id1?.getD "") n1 v)], some initSt) := by
    rw [applyFrame_atomic cfg initSt idx id1? n1 a hn1 ha, hv]
  constructor
  · have hc : applyFrame cfg initSt (contToolFrame idx p) = ([], some initSt) := by
      rw [applyFrame_cont cfg initSt idx p hp]
      simp [initSt, callLookup]
    rw [foldFrames_cons_ok _ _ _ _ _ _ hat,
      foldFrames_cons_ok _ _ _ _ _ _ hc, foldFrames_nil]
    simp
  · rw [foldFrames_cons_ok _ _ _ _ _ _ hat,
      foldFrames_cons_ok _ _ _ _ _ _ (applyFrame_start cfg initSt idx id2? n2),
      foldFrames_nil]
    simp [initSt, callInsert]

/-- Witness for C7's amended statement. -/
theorem C7_witness :
    ("f" : String).isEmpty = false ∧ jsonFromStr "\x7b\x7d" = some (.obj []) ∧
    foldFrames ⟨true, "think"⟩ initSt
        [atomicFrame 1 (some "idA") "f" "\x7b\x7d", contToolFrame 1 "z"] =
      ([.ok (.toolCall "idA" "f" (.obj []))], some initSt) :=
  ⟨by decide, rfl,
    (C7_amended_slot_reentry ⟨true, "think"⟩ 1 (some "idA") "f" "\x7b\x7d"
      (.obj []) (some "idB") "g" "z" (by decide) (by decide) rfl (by decide)).1⟩

/-! # Claim C8 -/

/-- C8: a continuation fragment (no name, non-empty arguments piece) arriving
for a slot with no existing accumulator entry is discarded: no synthetic
entry is created, the state — including the accumulator map — is left
unchanged, and the stream continues processing subsequent frames exactly as
if the fragment had not arrived. -/
theorem C8_orphan_continuation_discarded (cfg : MergeConfig) (st : St)
    (idx : Nat) (p : String) (rest : List StreamingCompletionChunk)
    (hp : p.isEmpty = false) (hlk : callLookup st.calls idx = none) :
    applyFrame cfg st (contToolFrame idx p) = ([], some st) ∧
    foldFrames cfg st (contToolFrame idx p :: rest) = foldFrames cfg st rest := by
  have happ : applyFrame cfg st (contToolFrame idx p) = ([], some st) := by
    rw [applyFrame_cont cfg st idx p hp, hlk]
  exact ⟨happ, by rw [foldFrames_cons_ok _ _ _ _ _ _ happ]; simp⟩

/-- Witness for C8. -/
theorem C8_witness :
    ("x" : String).isEmpty = false ∧
    callLookup initSt.calls 0 = none ∧
    foldFrames ⟨true, "think"⟩ initSt [contToolFrame 0 "x", contentFrame "hi"] =
      foldFrames ⟨true, "think"⟩ initSt [contentFrame "hi"] :=
  ⟨by decide, rfl,
    (C8_orphan_continuation_discarded ⟨true, "think"⟩ initSt 0 "x"
      [contentFrame "hi"] (by decide) rfl).2⟩

/-! # Shape facts about one processing step -/

theorem applyFrag_shape (calls : CallMap) (tc : StreamingToolCall) :
    applyFrag calls tc = none ∨
    (∃ calls', applyFrag calls tc = some (calls', none)) ∨
    (∃ calls' id n v,
      applyFrag calls tc = some (calls', some (.ok (.toolCall id n v)))) := by
  unfold applyFrag
  by_cases h1 : tc.function.name.isSome && tc.function.arguments.isEmpty
  · right; left; exact ⟨_, by rw [if_pos h1]⟩
  · rw [if_neg h1]
    by_cases h2 : isNoneOrEmpty tc.function.name && !tc.function.arguments.isEmpty
    · rw [if_pos h2]
      cases hlk : callLookup calls tc.index with
      | none => right; left; exact ⟨_, rfl⟩
      | some x =>
        obtain ⟨a, b, c⟩ := x
        right; left; exact ⟨_, rfl⟩
    · rw [if_neg h2]
      cases tc.function.name with
      | none => left; rfl
      | some n =>
        cases hp : jsonFromStr tc.function.arguments with
        | none => right; left; exact ⟨_, rfl⟩
        | some v => right; right; exact ⟨_, _, _, _, rfl⟩

theorem applyFrags_items_not_final (tcs : List StreamingToolCall) :
    ∀ (calls : CallMap), ∀ it ∈ (applyFrags calls tcs).1, isFinalItem it = false := by
  induction tcs with
  | nil => intro calls it h; simp [applyFrags] at h
  | cons tc tcs ih =>
    intro calls it h
    rcases applyFrag_shape calls tc with h0 | ⟨c', h0⟩ | ⟨c', id, n, v, h0⟩
    · simp [applyFrags, h0] at h
    · simp only [applyFrags, h0, Option.toList, List.nil_append] at h
      exact ih c' it h
    · simp only [applyFrags, h0, Option.toList, List.singleton_append,
        List.mem_cons] at h
      rcases h with h | h
      · rw [h]; rfl
      · exact ih c' it h

/-- Everything the end-to-end proofs need about one successfully processed
delta: the usage tracker and accumulator aside, `has_reasoning` is monotone,
the content buffer only changes when reasoning has been observed, and the
loop never emits a `FinalResponse`. -/
theorem applyDelta_some_facts (cfg : MergeConfig) (st : St) (d : StreamingDelta)
    (items : List StreamItem) (st' : St)
    (h : applyDelta cfg st d = (items, some st')) :
    st'.final_usage = st.final_usage ∧
    (st.has_reasoning = true → st'.has_reasoning = true) ∧
    (st'.content_buffer = st.content_buffer ∨ st'.has_reasoning = true) ∧
    (∀ it ∈ items, isFinalItem it = false) := by
  have hfrags := applyFrags_items_not_final d.tool_calls st.calls
  unfold applyDelta at h
  rcases hfr : applyFrags st.calls d.tool_calls with ⟨its, oc⟩
  rw [hfr] at h
  rw [hfr] at hfrags
  cases oc with
  | none => exact absurd h (by simp)
  | some calls' =>
    dsimp only at h hfrags
    cases hrc : d.reasoning_content with
    | some r =>
      simp only [hrc] at h
      cases hc : d.content with
      | none =>
        simp only [hc] at h
        injection h with h1 h2
        injection h2 with h2
        subst h1; subst h2
        exact ⟨rfl, fun _ => rfl, Or.inr rfl, hfrags⟩
      | some c =>
        simp only [hc] at h
        by_cases hif : cfg.include_reason_in_content
        · simp only [hif, Bool.true_and, if_true] at h
          injection h with h1 h2
          injection h2 with h2
          subst h1; subst h2
          exact ⟨rfl, fun _ => rfl, Or.inr rfl, hfrags⟩
        · simp only [hif, Bool.false_and, if_false] at h
          injection h with h1 h2
          injection h2 with h2
          subst h1; subst h2
          refine ⟨rfl, fun _ => rfl, Or.inr rfl, ?_⟩
          intro it hit
          rcases List.mem_append.mp hit with hmem | hmem
          · exact hfrags it hmem
          · simp at hmem; rw [hmem]; rfl
    | none =>
      simp only [hrc] at h
      cases hc : d.content with
      | none =>
        simp only [hc] at h
        injection h with h1 h2
        injection h2 with h2
        subst h1; subst h2
        exact ⟨rfl, fun hh => hh, Or.inl rfl, hfrags⟩
      | some c =>
        simp only [hc] at h
        by_cases hif : cfg.include_reason_in_content && st.has_reasoning
        · simp only [hif, if_true] at h
          injection h with h1 h2
          injection h2 with h2
          subst h1; subst h2
          exact ⟨rfl, fun hh => hh,
            Or.inr (Bool.and_eq_true .. ▸ hif).2, hfrags⟩
        · simp only [hif, if_false] at h
          injection h with h1 h2
          injection h2 with h2
          subst h1; subst h2
          refine ⟨rfl, fun hh => hh, Or.inl rfl, ?_⟩
          intro it hit
          rcases List.mem_append.mp hit with hmem | hmem
          · exact hfrags it hmem
          · simp at hmem; rw [hmem]; rfl

/-- The per-frame facts lifted through the usage-snapshot step. -/
theorem applyFrame_some_facts (cfg : MergeConfig) (st : St)
    (f : StreamingCompletionChunk) (items : List StreamItem) (st' : St)
    (h : applyFrame cfg st f = (items, some st')) :
    st'.final_usage = f.usage.getD st.final_usage ∧
    (st.has_reasoning = true → st'.has_reasoning = true) ∧
    (st'.content_buffer = st.content_buffer ∨ st'.has_reasoning = true) ∧
    (∀ it ∈ items, isFinalItem it = false) := by
  unfold applyFrame at h
  cases hch : f.choices.head? with
  | none =>
    rw [hch] at h
    dsimp only at h
    cases hu : f.usage with
    | none =>
      simp only [hu] at h
      injection h with h1 h2
      injection h2 with h2
      subst h1; subst h2
      exact ⟨rfl, fun hh => hh, Or.inl rfl, by simp⟩
    | some u =>
      simp only [hu] at h
      injection h with h1 h2
      injection h2 with h2
      subst h1; subst h2
      exact ⟨rfl, fun hh => hh, Or.inl rfl, by simp⟩
  | some choice =>
    rw [hch] at h
    dsimp only at h
    rcases hd : applyDelta cfg st choice.delta with ⟨its, ost⟩
    rw [hd] at h
    cases ost with
    | none => exact absurd h (by simp)
    | some st₁ =>
      obtain ⟨hfu, hmono, hcb, hni⟩ := applyDelta_some_facts cfg st choice.delta its st₁ hd
      cases hu : f.usage with
      | none =>
        simp only [hu] at h
        injection h with h1 h2
        injection h2 with h2
        subst h1; subst h2
        exact ⟨hfu, hmono, hcb, hni⟩
      | some u =>
        simp only [hu] at h
        injection h with h1 h2
        injection h2 with h2
        subst h1; subst h2
        exact ⟨rfl, hmono, hcb, hni⟩

theorem lastD_cons {α : Type} (l : List α) : ∀ u d : α,
    ((u :: l).getLast?).getD d = (l.getLast?).getD u := by
  induction l with
  | nil => intro u d; rfl
  | cons v l ih =>
    intro u d
    rw [List.getLast?_cons_cons]
    rw [ih v d, ih v u]

/-- The loop fold: the tracked usage is the last usage snapshot seen (or the
starting one), the content-buffer invariant is preserved, and no
`FinalResponse` is emitted by the loop itself. -/
theorem foldFrames_state_facts (cfg : MergeConfig)
    (frames : List StreamingCompletionChunk) :
    ∀ (st : St) (items : List StreamItem) (st' : St),
    foldFrames cfg st frames = (items, some st') →
    st'.final_usage =
      (((frames.filterMap StreamingCompletionChunk.usage).getLast?).getD
        st.final_usage) ∧
    ((st.content_buffer = "" ∨ st.has_reasoning = true) →
      (st'.content_buffer = "" ∨ st'.has_reasoning = true)) ∧
    (∀ it ∈ items, isFinalItem it = false) := by
  induction frames with
  | nil =>
    intro st items st' h
    rw [foldFrames_nil] at h
    injection h with h1 h2
    injection h2 with h2
    subst h1; subst h2
    exact ⟨rfl, fun hh => hh, by simp⟩
  | cons f fs ih =>
    intro st items st' h
    rcases happ : applyFrame cfg st f with ⟨its₁, ost₁⟩
    cases ost₁ with
    | none => rw [foldFrames_cons_panic _ _ _ _ _ happ] at h; exact absurd h (by simp)
    | some st₁ =>
      rw [foldFrames_cons_ok _ _ _ _ _ _ happ] at h
      injection h with h1 h2
      obtain ⟨hfu1, hmono1, hcb1, hni1⟩ := applyFrame_some_facts cfg st f its₁ st₁ happ
      rcases hrest : foldFrames cfg st₁ fs with ⟨its₂, ost₂⟩
      rw [hrest] at h1 h2
      dsimp only at h1 h2
      subst h2
      obtain ⟨hfu2, hinv2, hni2⟩ := ih st₁ its₂ st' hrest
      refine ⟨?_, ?_, ?_⟩
      · rw [hfu2, hfu1]
        cases hu : f.usage with
        | none => simp [List.filterMap_cons, hu]
        | some u => simp [List.filterMap_cons, hu, lastD_cons]
      · intro hst
        apply hinv2
        rcases hcb1 with hcb | hhr
        · rcases hst with hst | hst
          · exact Or.inl (hcb.trans hst)
          · exact Or.inr (hmono1 hst)
        · exact Or.inr hhr
      · subst h1
        intro it hit
        rcases List.mem_append.mp hit with hmem | hmem
        · exact hni1 it hmem
        · exact hni2 it hmem

/-! # Claim C10 -/

/-- C10: at every point during a stream (after any sequence of frames), the
content buffer is non-empty only if a reasoning fragment has already been
observed; consequently the end-of-stream branch that flushes buffered content
when no reasoning was observed can never emit an event (the whole
reasoning/content flush is empty when `has_reasoning` is false). -/
theorem C10_content_buffer_requires_reasoning (cfg : MergeConfig)
    (frames : List StreamingCompletionChunk) (items : List StreamItem) (st : St)
    (h : foldFrames cfg initSt frames = (items, some st)) :
    (st.content_buffer ≠ "" → st.has_reasoning = true) ∧
    (st.has_reasoning = false → mergeFlush cfg st = []) := by
  have hinv := (foldFrames_state_facts cfg frames initSt items st h).2.1
    (Or.inl rfl)
  have hcb : st.content_buffer ≠ "" → st.has_reasoning = true := by
    intro hne
    rcases hinv with hcb | hhr
    · exact absurd hcb hne
    · exact hhr
  refine ⟨hcb, fun hhr => ?_⟩
  have hempty : st.content_buffer = "" := by
    by_contra hne
    rw [hcb hne] at hhr
    exact absurd hhr (by simp)
  unfold mergeFlush
  rw [hhr, hempty]
  simp [rustIsBlank_empty]

/-- Witness for C10 at a concrete stream (reasoning `"R"` then content
`"C"`, merge enabled): the buffer is non-empty and reasoning was observed. -/
theorem C10_witness :
    (⟨⟨0, 0⟩, [], "R", "C", true⟩ : St).content_buffer ≠ "" ∧
    (⟨⟨0, 0⟩, [], "R", "C", true⟩ : St).has_reasoning = true :=
  ⟨by decide,
    (C10_content_buffer_requires_reasoning ⟨true, "think"⟩
      [reasonFrame "R", contentFrame "C"] []
      ⟨⟨0, 0⟩, [], "R", "C", true⟩ (by rfl)).1 (by decide)⟩

/-! # Claim C9 -/

/-- C9: the "entire tool call" branch is in fact reachable with an absent
name.  A well-formed frame whose tool-call fragment is
`{"index":0,"function":{}}` — name absent and arguments `""` — matches
neither the start branch (arguments must be empty *and* name present) nor the
continuation branch (arguments must be non-empty), so the `expect("function
name should be present for complete tool call")` receives `None` and panics
(first conjunct: the fragment dispatch yields the panic outcome `none`).
Consequently processing a stream carrying that frame aborts with no events at
all (second conjunct). -/
theorem C9_absent_name_empty_arguments_panics :
    applyFrag [] ⟨0, none, ⟨none, ""⟩⟩ = none ∧
    streamEvents ⟨true, "think"⟩
      [Except.ok (asciiBytes
        "data: \x7b\"choices\":[\x7b\"delta\":\x7b\"tool_calls\":[\x7b\"index\":0,\"function\":\x7b\x7d\x7d]\x7d\x7d]\x7d\n")] =
      [] := ⟨rfl, rfl⟩

/-! # Claim C2 counterexample -/

/-- C2 counterexample: a stream consisting of one transport failure yields
the terminal-looking `Error` *followed by* a `FinalResponse` — the event
sequence does not end at the `Error`, refuting "no further events are emitted
after it". -/
theorem C2_counterexample :
    streamEvents ⟨true, "think"⟩ [Except.error ()] =
      [Except.error ErrKind.transport,
       Except.ok (RawStreamingChoice.finalResponse ⟨0, 0⟩)] ∧
    (streamEvents ⟨true, "think"⟩ [Except.error ()]).getLast? ≠
      some (Except.error ErrKind.transport) :=
  ⟨rfl, fun h => nomatch h⟩

/-! # Claim C3 counterexample -/

/-- C3 counterexample: the logical byte content `[0xC3, 0xA9]` (UTF-8 `é`)
delivered as one chunk produces `[FinalResponse]`, but the same content split
in the middle of the character produces `[Error(decode), FinalResponse]` —
the emitted event sequence depends on where the chunk boundary falls. -/
theorem C3_counterexample :
    List.flatten [[195, 169]] = List.flatten [[195], [169]] ∧
    streamEvents ⟨true, "think"⟩ [Except.ok [195, 169]] =
      [Except.ok (RawStreamingChoice.finalResponse ⟨0, 0⟩)] ∧
    streamEvents ⟨true, "think"⟩ [Except.ok [195], Except.ok [169]] =
      [Except.error ErrKind.decode,
       Except.ok (RawStreamingChoice.finalResponse ⟨0, 0⟩)] ∧
    streamEvents ⟨true, "think"⟩ [Except.ok [195, 169]] ≠
      streamEvents ⟨true, "think"⟩ [Except.ok [195], Except.ok [169]] :=
  ⟨rfl, rfl, rfl, fun h => nomatch h⟩

/-! # Equation lemmas for the line and chunk folds -/

theorem processLines_nil (cfg : MergeConfig) (ls : LoopSt) :
    processLines cfg ls [] = ([], some ls) := rfl

theorem processLines_cons_ok (cfg : MergeConfig) (ls : LoopSt) (l : List Char)
    (rest : List (List Char)) (items : List StreamItem) (ls₁ : LoopSt)
    (h : processLine cfg ls l = (items, some ls₁)) :
    processLines cfg ls (l :: rest) =
      (items ++ (processLines cfg ls₁ rest).1, (processLines cfg ls₁ rest).2) := by
  simp only [processLines, h]

theorem processLines_cons_panic (cfg : MergeConfig) (ls : LoopSt) (l : List Char)
    (rest : List (List Char)) (items : List StreamItem)
    (h : processLine cfg ls l = (items, none)) :
    processLines cfg ls (l :: rest) = (items, none) := by
  simp only [processLines, h]

theorem processLines_append_ok (cfg : MergeConfig) (l1 : List (List Char)) :
    ∀ (l2 : List (List Char)) (ls : LoopSt) (items : List StreamItem) (ls' : LoopSt),
    processLines cfg ls l1 = (items, some ls') →
    processLines cfg ls (l1 ++ l2) =
      (items ++ (processLines cfg ls' l2).1, (processLines cfg ls' l2).2) := by
  induction l1 with
  | nil =>
    intro l2 ls items ls' h
    rw [processLines_nil] at h
    injection h with h1 h2
    injection h2 with h2
    subst h1; subst h2
    simp
  | cons l t ih =>
    intro l2 ls items ls' h
    rcases hpl : processLine cfg ls l with ⟨i1, o1⟩
    cases o1 with
    | none =>
      rw [processLines_cons_panic _ _ _ _ _ hpl] at h
      exact absurd h (by simp)
    | some ls₁ =>
      rw [processLines_cons_ok _ _ _ _ _ _ hpl] at h
      rcases hrest : processLines cfg ls₁ t with ⟨i2, o2⟩
      rw [hrest] at h
      dsimp only at h
      injection h with h1 h2
      subst h2
      rw [List.cons_append, processLines_cons_ok _ _ _ _ _ _ hpl,
        ih l2 ls₁ i2 ls' hrest]
      subst h1
      simp [List.append_assoc]

theorem processLines_append_panic (cfg : MergeConfig) (l1 : List (List Char)) :
    ∀ (l2 : List (List Char)) (ls : LoopSt) (items : List StreamItem),
    processLines cfg ls l1 = (items, none) →
    processLines cfg ls (l1 ++ l2) = (items, none) := by
  induction l1 with
  | nil =>
    intro l2 ls items h
    rw [processLines_nil] at h
    exact absurd h (by simp)
  | cons l t ih =>
    intro l2 ls items h
    rcases hpl : processLine cfg ls l with ⟨i1, o1⟩
    cases o1 with
    | none =>
      rw [processLines_cons_panic _ _ _ _ _ hpl] at h
      injection h with h1 _
      subst h1
      rw [List.cons_append, processLines_cons_panic _ _ _ _ _ hpl]
    | some ls₁ =>
      rw [processLines_cons_ok _ _ _ _ _ _ hpl] at h
      rcases hrest : processLines cfg ls₁ t with ⟨i2, o2⟩
      rw [hrest] at h
      dsimp only at h
      injection h with h1 h2
      subst h2
      rw [List.cons_append, processLines_cons_ok _ _ _ _ _ _ hpl,
        ih l2 ls₁ i2 hrest]
      subst h1
      simp [List.append_assoc]

/-! # Line splitting distributes over newline-terminated prefixes -/

theorem linesAux_cons (acc : List Char) (c : Char) (rest : List Char) :
    linesAux acc (c :: rest) =
      if c = '\n' then stripCR acc.reverse :: linesAux [] rest
      else linesAux (c :: acc) rest := rfl

theorem linesAux_append_newline (a : List Char) :
    ∀ (acc b : List Char), a.getLast? = some '\n' →
    linesAux acc (a ++ b) = linesAux acc a ++ linesAux [] b := by
  induction a with
  | nil => intro acc b h; simp at h
  | cons c t ih =>
    intro acc b h
    cases t with
    | nil =>
      simp only [List.getLast?_singleton, Option.some.injEq] at h
      subst h
      rw [List.singleton_append, linesAux_cons, linesAux_cons, if_pos rfl,
        if_pos rfl]
      rfl
    | cons c2 t2 =>
      have h' : (c2 :: t2).getLast? = some '\n' := by
        rwa [List.getLast?_cons_cons] at h
      by_cases hc : c = '\n'
      · subst hc
        rw [List.cons_append, linesAux_cons, linesAux_cons, if_pos rfl,
          if_pos rfl, ih [] b h', List.cons_append]
      · rw [List.cons_append, linesAux_cons, linesAux_cons, if_neg hc,
          if_neg hc]
        exact ih (c :: acc) b h'

theorem linesRust_append (a b : List Char) (h : a.getLast? = some '\n') :
    linesRust (a ++ b) = linesRust a ++ linesRust b :=
  linesAux_append_newline a [] b h

theorem linesRust_flatten (ts : List (List Char))
    (h : ∀ t ∈ ts, t.getLast? = some '\n') :
    linesRust ts.flatten = (ts.map linesRust).flatten := by
  induction ts with
  | nil => rfl
  | cons t ts ih =>
    rw [List.flatten_cons, linesRust_append t ts.flatten (h t (by simp)),
      List.map_cons, List.flatten_cons, ih (fun x hx => h x (by simp [hx]))]

/-- Feeding chunk texts one at a time is the same as processing the
concatenation of their line lists. -/
theorem processTexts_eq_lines (cfg : MergeConfig) (ts : List (List Char)) :
    ∀ ls : LoopSt,
    processTexts cfg ls ts = processLines cfg ls ((ts.map linesRust).flatten) := by
  induction ts with
  | nil => intro ls; rfl
  | cons t ts ih =>
    intro ls
    rw [List.map_cons, List.flatten_cons]
    rcases hpl : processLines cfg ls (linesRust t) with ⟨i1, o1⟩
    cases o1 with
    | none =>
      rw [processLines_append_panic cfg (linesRust t) _ ls i1 hpl]
      simp only [processTexts, hpl]
    | some ls₁ =>
      rw [processLines_append_ok cfg (linesRust t) _ ls i1 ls₁ hpl]
      simp only [processTexts, hpl, ih ls₁]

/-! # Claim C3 (amended) -/

/-- C3 (amended): the emitted event sequence is invariant across chunkings of
the same logical text whose boundaries all fall at line boundaries (every
chunk ends with a newline); boundaries mid-line or inside a multi-byte
character can change the sequence (see the counterexample). -/
theorem C3_amended_line_boundary_invariance (cfg : MergeConfig)
    (ts1 ts2 : List (List Char))
    (h1 : ∀ t ∈ ts1, t.getLast? = some '\n')
    (h2 : ∀ t ∈ ts2, t.getLast? = some '\n')
    (hjoin : ts1.flatten = ts2.flatten) :
    runTexts cfg ts1 = runTexts cfg ts2 := by
  unfold runTexts
  rw [processTexts_eq_lines cfg ts1 initLoopSt, processTexts_eq_lines cfg ts2 initLoopSt,
    ← linesRust_flatten ts1 h1, ← linesRust_flatten ts2 h2, hjoin]

/-- Witness for C3's amended statement: two frames delivered as one chunk or
as two line-aligned chunks produce identical event sequences. -/
theorem C3_witness :
    (∀ t ∈ [("data: \x7b\"choices\":[\x7b\"delta\":\x7b\"content\":\"A\"\x7d\x7d]\x7d\n" ++
        "data: \x7b\"choices\":[\x7b\"delta\":\x7b\"content\":\"B\"\x7d\x7d]\x7d\n" : String).data],
      t.getLast? = some '\n') ∧
    runTexts ⟨true, "think"⟩
        [("data: \x7b\"choices\":[\x7b\"delta\":\x7b\"content\":\"A\"\x7d\x7d]\x7d\n" ++
          "data: \x7b\"choices\":[\x7b\"delta\":\x7b\"content\":\"B\"\x7d\x7d]\x7d\n" : String).data] =
      runTexts ⟨true, "think"⟩
        [("data: \x7b\"choices\":[\x7b\"delta\":\x7b\"content\":\"A\"\x7d\x7d]\x7d\n" : String).data,
         ("data: \x7b\"choices\":[\x7b\"delta\":\x7b\"content\":\"B\"\x7d\x7d]\x7d\n" : String).data] ∧
    runTexts ⟨true, "think"⟩
        [("data: \x7b\"choices\":[\x7b\"delta\":\x7b\"content\":\"A\"\x7d\x7d]\x7d\n" : String).data,
         ("data: \x7b\"choices\":[\x7b\"delta\":\x7b\"content\":\"B\"\x7d\x7d]\x7d\n" : String).data] =
      [Except.ok (RawStreamingChoice.message "A"),
       Except.ok (RawStreamingChoice.message "B"),
       Except.ok (RawStreamingChoice.finalResponse ⟨0, 0⟩)] := by
  refine ⟨by decide, ?_, rfl⟩
  exact C3_amended_line_boundary_invariance ⟨true, "think"⟩ _ _
    (by decide) (by decide) (by decide)

/-! # Equation lemmas for the chunk loop -/

theorem processChunks_nil (cfg : MergeConfig) (ls : LoopSt) :
    processChunks cfg ls [] = ([], some ls) := rfl

theorem processChunks_cons_err (cfg : MergeConfig) (ls : LoopSt) (e : Unit)
    (rest : List RawChunk) :
    processChunks cfg ls (Except.error e :: rest) =
      ([Except.error ErrKind.transport], some ls) := rfl

theorem processChunks_cons_baddecode (cfg : MergeConfig) (ls : LoopSt)
    (bs : List Nat) (rest : List RawChunk) (h : utf8Decode bs = none) :
    processChunks cfg ls (Except.ok bs :: rest) =
      ([Except.error ErrKind.decode], some ls) := by
  simp only [processChunks, h]

theorem processChunks_cons_ok (cfg : MergeConfig) (ls : LoopSt) (bs : List Nat)
    (text : List Char) (rest : List RawChunk) (items : List StreamItem)
    (ls₁ : LoopSt) (hdec : utf8Decode bs = some text)
    (hpl : processLines cfg ls (linesRust text) = (items, some ls₁)) :
    processChunks cfg ls (Except.ok bs :: rest) =
      (items ++ (processChunks cfg ls₁ rest).1, (processChunks cfg ls₁ rest).2) := by
  simp only [processChunks, hdec, hpl]

theorem processChunks_cons_panic (cfg : MergeConfig) (ls : LoopSt) (bs : List Nat)
    (text : List Char) (rest : List RawChunk) (items : List StreamItem)
    (hdec : utf8Decode bs = some text)
    (hpl : processLines cfg ls (linesRust text) = (items, none)) :
    processChunks cfg ls (Except.ok bs :: rest) = (items, none) := by
  simp only [processChunks, hdec, hpl]

/-- A prefix of decodable byte chunks is consumed without breaking, so the
loop continues into whatever follows it. -/
theorem processChunks_append_good (cfg : MergeConfig) (pre : List RawChunk) :
    ∀ (rest : List RawChunk) (ls : LoopSt) (items : List StreamItem) (ls' : LoopSt),
    (∀ x ∈ pre, ∃ bs text, x = Except.ok bs ∧ utf8Decode bs = some text) →
    processChunks cfg ls pre = (items, some ls') →
    processChunks cfg ls (pre ++ rest) =
      (items ++ (processChunks cfg ls' rest).1, (processChunks cfg ls' rest).2) := by
  induction pre with
  | nil =>
    intro rest ls items ls' _ h
    rw [processChunks_nil] at h
    injection h with h1 h2
    injection h2 with h2
    subst h1; subst h2
    simp
  | cons x pre' ih =>
    intro rest ls items ls' hgood h
    obtain ⟨bs, text, hx, hdec⟩ := hgood x (by simp)
    subst hx
    rcases hpl : processLines cfg ls (linesRust text) with ⟨i1, o1⟩
    cases o1 with
    | none =>
      rw [processChunks_cons_panic cfg ls bs text pre' i1 hdec hpl] at h
      exact absurd h (by simp)
    | some ls₁ =>
      rw [processChunks_cons_ok cfg ls bs text pre' i1 ls₁ hdec hpl] at h
      rcases hrest : processChunks cfg ls₁ pre' with ⟨i2, o2⟩
      rw [hrest] at h
      dsimp only at h
      injection h with h1 h2
      subst h2
      rw [List.cons_append, processChunks_cons_ok cfg ls bs text _ i1 ls₁ hdec hpl,
        ih rest ls₁ i2 ls' (fun y hy => hgood y (by simp [hy])) hrest]
      subst h1
      simp [List.append_assoc]

/-! # Claim C2 (amended) -/

/-- C2 (amended): a byte-read (transport) or invalid-byte-sequence (decode)
failure mid-stream stops the consumption of input — every chunk after it is
ignored — but the resulting `Error` event is not terminal: the end-of-stream
flush still runs after it, so the events following the `Error` are exactly
the flush of the state accumulated before the failure (buffered
reasoning/content, leftover tool calls) and the single `FinalResponse`. -/
theorem C2_amended_error_stops_input_not_output (cfg : MergeConfig)
    (pre post : List RawChunk) (items : List StreamItem) (ls : LoopSt)
    (hgood : ∀ x ∈ pre, ∃ bs text, x = Except.ok bs ∧ utf8Decode bs = some text)
    (hpre : processChunks cfg initLoopSt pre = (items, some ls)) :
    (∀ e : Unit, streamEvents cfg (pre ++ Except.error e :: post) =
      items ++ Except.error ErrKind.transport :: finishStream cfg ls.st) ∧
    (∀ bs, utf8Decode bs = none →
      streamEvents cfg (pre ++ Except.ok bs :: post) =
      items ++ Except.error ErrKind.decode :: finishStream cfg ls.st) := by
  constructor
  · intro e
    have hp : processChunks cfg initLoopSt (pre ++ Except.error e :: post) =
        (items ++ [Except.error ErrKind.transport], some ls) := by
      rw [processChunks_append_good cfg pre _ initLoopSt items ls hgood hpre,
        processChunks_cons_err]
    unfold streamEvents
    rw [hp]
    simp
  · intro bs hbs
    have hp : processChunks cfg initLoopSt (pre ++ Except.ok bs :: post) =
        (items ++ [Except.error ErrKind.decode], some ls) := by
      rw [processChunks_append_good cfg pre _ initLoopSt items ls hgood hpre,
        processChunks_cons_baddecode cfg ls bs _ hbs]
    unfold streamEvents
    rw [hp]
    simp

/-- Witness for C2's amended statement: one transport failure followed by a
healthy frame; the frame is ignored and the `Error` is followed by the flush
and the `FinalResponse`. -/
theorem C2_witness :
    processChunks ⟨true, "think"⟩ initLoopSt [] = ([], some initLoopSt) ∧
    streamEvents ⟨true, "think"⟩
        ([] ++ Except.error () ::
          [Except.ok (asciiBytes
            "data: \x7b\"choices\":[\x7b\"delta\":\x7b\"content\":\"X\"\x7d\x7d]\x7d\n")]) =
      [] ++ Except.error ErrKind.transport ::
        finishStream ⟨true, "think"⟩ initLoopSt.st :=
  ⟨rfl,
    (C2_amended_error_stops_input_not_output ⟨true, "think"⟩ [] _ [] initLoopSt
      (by simp) rfl).1 ()⟩

/-! # The loop emits no FinalResponse (at any level) -/

theorem applyDelta_items_not_final (cfg : MergeConfig) (st : St)
    (d : StreamingDelta) :
    ∀ it ∈ (applyDelta cfg st d).1, isFinalItem it = false := by
  intro it hit
  have hfrags := applyFrags_items_not_final d.tool_calls st.calls
  unfold applyDelta at hit
  rcases hfr : applyFrags st.calls d.tool_calls with ⟨its, oc⟩
  rw [hfr] at hit hfrags
  dsimp only at hfrags
  cases oc with
  | none =>
    dsimp only at hit
    exact hfrags it hit
  | some calls' =>
    dsimp only at hit
    cases hc : d.content with
    | none =>
      simp only [hc] at hit
      exact hfrags it hit
    | some c =>
      simp only [hc] at hit
      split at hit
      · exact hfrags it (by simpa using hit)
      · simp only [List.mem_append] at hit
        rcases hit with hmem | hmem
        · exact hfrags it (by simpa using hmem)
        · simp at hmem; rw [hmem]; rfl

theorem applyFrame_items_not_final (cfg : MergeConfig) (st : St)
    (f : StreamingCompletionChunk) :
    ∀ it ∈ (applyFrame cfg st f).1, isFinalItem it = false := by
  intro it hit
  unfold applyFrame at hit
  cases hch : f.choices.head? with
  | none =>
    rw [hch] at hit
    dsimp only at hit
    cases hu : f.usage with
    | none => simp [hu] at hit
    | some u => simp [hu] at hit
  | some choice =>
    rw [hch] at hit
    dsimp only at hit
    have hni := applyDelta_items_not_final cfg st choice.delta
    rcases hd : applyDelta cfg st choice.delta with ⟨its, ost⟩
    rw [hd] at hit hni
    dsimp only at hni
    cases ost with
    | none =>
      dsimp only at hit
      exact hni it hit
    | some st₁ =>
      dsimp only at hit
      cases hu : f.usage with
      | none => simp only [hu] at hit; exact hni it hit
      | some u => simp only [hu] at hit; exact hni it hit

theorem processLine_items_not_final (cfg : MergeConfig) (ls : LoopSt)
    (l : List Char) :
    ∀ it ∈ (processLine cfg ls l).1, isFinalItem it = false := by
  intro it hit
  unfold processLine at hit
  rcases hps : payloadStep ls.pd l with ⟨pd', att⟩
  rw [hps] at hit
  dsimp only at hit
  cases att with
  | none => simp at hit
  | some p =>
    dsimp only at hit
    cases hpc : parseChunk p with
    | none => simp [hpc] at hit
    | some ch =>
      simp only [hpc] at hit
      have hni := applyFrame_items_not_final cfg ls.st ch
      rcases happ : applyFrame cfg ls.st ch with ⟨its, ost⟩
      rw [happ] at hit hni
      dsimp only at hni
      cases ost with
      | none => dsimp only at hit; exact hni it hit
      | some st₁ => dsimp only at hit; exact hni it hit

theorem processLines_items_not_final (cfg : MergeConfig)
    (lines : List (List Char)) :
    ∀ (ls : LoopSt), ∀ it ∈ (processLines cfg ls lines).1, isFinalItem it = false := by
  induction lines with
  | nil => intro ls it hit; simp [processLines_nil] at hit
  | cons l rest ih =>
    intro ls it hit
    have hni := processLine_items_not_final cfg ls l
    rcases hpl : processLine cfg ls l with ⟨i1, o1⟩
    rw [hpl] at hni
    dsimp only at hni
    cases o1 with
    | none =>
      rw [processLines_cons_panic _ _ _ _ _ hpl] at hit
      exact hni it hit
    | some ls₁ =>
      rw [processLines_cons_ok _ _ _ _ _ _ hpl] at hit
      dsimp only at hit
      rcases List.mem_append.mp hit with hmem | hmem
      · exact hni it hmem
      · exact ih ls₁ it hmem

theorem processChunks_items_not_final (cfg : MergeConfig)
    (cs : List RawChunk) :
    ∀ (ls : LoopSt), ∀ it ∈ (processChunks cfg ls cs).1, isFinalItem it = false := by
  induction cs with
  | nil => intro ls it hit; simp [processChunks_nil] at hit
  | cons c rest ih =>
    intro ls it hit
    cases c with
    | error e =>
      rw [processChunks_cons_err] at hit
      simp at hit
      rw [hit]; rfl
    | ok bs =>
      cases hdec : utf8Decode bs with
      | none =>
        rw [processChunks_cons_baddecode _ _ _ _ hdec] at hit
        simp at hit
        rw [hit]; rfl
      | some text =>
        have hni := processLines_items_not_final cfg (linesRust text) ls
        rcases hpl : processLines cfg ls (linesRust text) with ⟨i1, o1⟩
        rw [hpl] at hni
        dsimp only at hni
        cases o1 with
        | none =>
          rw [processChunks_cons_panic _ _ _ _ _ _ hdec hpl] at hit
          exact hni it hit
        | some ls₁ =>
          rw [processChunks_cons_ok _ _ _ _ _ _ _ hdec hpl] at hit
          dsimp only at hit
          rcases List.mem_append.mp hit with hmem | hmem
          · exact hni it hmem
          · exact ih ls₁ it hmem

theorem mem_ite_singleton {α : Type} (c : Bool) (a x : α)
    (h : x ∈ (if c = true then [a] else [])) : x = a := by
  cases c
  · simp at h
  · simpa using h

theorem mergeFlush_items_not_final (cfg : MergeConfig) (st : St) :
    ∀ it ∈ mergeFlush cfg st, isFinalItem it = false := by
  intro it hit
  unfold mergeFlush at hit
  by_cases h1 : st.has_reasoning = true
  · rw [if_pos h1] at hit
    by_cases h2 : cfg.include_reason_in_content = true
    · rw [if_pos h2] at hit
      rw [mem_ite_singleton _ _ _ hit]
      rfl
    · rw [if_neg h2] at hit
      rcases List.mem_append.mp hit with hm | hm
      · rw [mem_ite_singleton _ _ _ hm]; rfl
      · rw [mem_ite_singleton _ _ _ hm]; rfl
  · rw [if_neg h1] at hit
    rw [mem_ite_singleton _ _ _ hit]
    rfl

theorem callsFlush_items_not_final (calls : CallMap) :
    ∀ it ∈ callsFlush calls, isFinalItem it = false := by
  intro it hit
  unfold callsFlush at hit
  rcases List.mem_filterMap.mp hit with ⟨kv, _, hkv⟩
  rcases Option.map_eq_some'.mp hkv with ⟨v, _, hv⟩
  rw [← hv]; rfl

/-! # State bridges: chunks → lines → frames -/

theorem payloadsAux_cons (pd : Option (List Char)) (l : List Char)
    (ls : List (List Char)) :
    payloadsAux pd (l :: ls) =
      (match payloadStep pd l with
       | (pd', none) => payloadsAux pd' ls
       | (pd', some p) => p :: payloadsAux pd' ls) := rfl

/-- The state reached by the per-line fold is the state of the frame fold
over the payloads that parsed, with the hold-over threaded through. -/
theorem processLines_state_eq_frames (cfg : MergeConfig)
    (lines : List (List Char)) :
    ∀ (pd : Option (List Char)) (st : St),
    ((processLines cfg ⟨pd, st⟩ lines).2).map LoopSt.st =
      (foldFrames cfg st (framesOfLines pd lines)).2 := by
  induction lines with
  | nil => intro pd st; rfl
  | cons l rest ih =>
    intro pd st
    rcases hps : payloadStep pd l with ⟨pd', att⟩
    cases att with
    | none =>
      have hline : processLine cfg ⟨pd, st⟩ l = ([], some ⟨pd', st⟩) := by
        unfold processLine
        dsimp only
        rw [hps]
      have hfr : framesOfLines pd (l :: rest) = framesOfLines pd' rest := by
        unfold framesOfLines
        rw [payloadsAux_cons, hps]
      rw [processLines_cons_ok _ _ _ _ _ _ hline, hfr]
      dsimp only
      exact ih pd' st
    | some p =>
      cases hpc : parseChunk p with
      | none =>
        have hline : processLine cfg ⟨pd, st⟩ l = ([], some ⟨pd', st⟩) := by
          unfold processLine
          dsimp only
          rw [hps]
          dsimp only
          rw [hpc]
        have hfr : framesOfLines pd (l :: rest) = framesOfLines pd' rest := by
          unfold framesOfLines
          rw [payloadsAux_cons, hps]
          dsimp only
          rw [List.filterMap_cons, hpc]
        rw [processLines_cons_ok _ _ _ _ _ _ hline, hfr]
        dsimp only
        exact ih pd' st
      | some ch =>
        have hfr : framesOfLines pd (l :: rest) = ch :: framesOfLines pd' rest := by
          unfold framesOfLines
          rw [payloadsAux_cons, hps]
          dsimp only
          rw [List.filterMap_cons, hpc]
        rcases happ : applyFrame cfg st ch with ⟨its, ost⟩
        cases ost with
        | none =>
          have hline : processLine cfg ⟨pd, st⟩ l = (its, none) := by
            unfold processLine
            dsimp only
            rw [hps]
            dsimp only
            rw [hpc]
            dsimp only
            rw [happ]
          rw [processLines_cons_panic _ _ _ _ _ hline, hfr,
            foldFrames_cons_panic _ _ _ _ _ happ]
          rfl
        | some st₁ =>
          have hline : processLine cfg ⟨pd, st⟩ l = (its, some ⟨pd', st₁⟩) := by
            unfold processLine
            dsimp only
            rw [hps]
            dsimp only
            rw [hpc]
            dsimp only
            rw [happ]
          rw [processLines_cons_ok _ _ _ _ _ _ hline, hfr,
            foldFrames_cons_ok _ _ _ _ _ _ happ]
          dsimp only
          exact ih pd' st₁

/-- The state reached by the chunk loop is the state of the line fold over
the lines of the decoded texts consumed before any break. -/
theorem processChunks_state2_eq (cfg : MergeConfig) (cs : List RawChunk) :
    ∀ ls : LoopSt,
    (processChunks cfg ls cs).2 =
      (processLines cfg ls ((goodTexts cs).map linesRust).flatten).2 := by
  induction cs with
  | nil => intro ls; rfl
  | cons c rest ih =>
    intro ls
    cases c with
    | error e => rfl
    | ok bs =>
      cases hdec : utf8Decode bs with
      | none =>
        rw [processChunks_cons_baddecode _ _ _ _ hdec]
        have hgt : goodTexts (Except.ok bs :: rest) = [] := by
          simp only [goodTexts, hdec]
        rw [hgt]
        rfl
      | some text =>
        have hgt : goodTexts (Except.ok bs :: rest) = text :: goodTexts rest := by
          simp only [goodTexts, hdec]
        rw [hgt, List.map_cons, List.flatten_cons]
        rcases hpl : processLines cfg ls (linesRust text) with ⟨i1, o1⟩
        cases o1 with
        | none =>
          rw [processChunks_cons_panic _ _ _ _ _ _ hdec hpl,
            processLines_append_panic cfg (linesRust text) _ ls i1 hpl]
        | some ls₁ =>
          rw [processChunks_cons_ok _ _ _ _ _ _ _ hdec hpl,
            processLines_append_ok cfg (linesRust text) _ ls i1 ls₁ hpl]
          dsimp only
          exact ih ls₁

/-! # Claim C4 -/

set_option maxRecDepth 10000 in
/-- C4 counterexample: a stream whose single chunk carries a usage frame and
then a frame with the panicking tool-call fragment (name absent, arguments
empty) produces *no* events at all — in particular no `FinalResponse` — so
"for every stream, exactly one `FinalResponse` is emitted, as the last
event" is false on the code. -/
theorem C4_counterexample :
    streamEvents ⟨true, "think"⟩
      [Except.ok (asciiBytes
        ("data: \x7b\"choices\":[],\"usage\":\x7b\"prompt_tokens\":3,\"total_tokens\":7\x7d\x7d\n" ++
         "data: \x7b\"choices\":[\x7b\"delta\":\x7b\"tool_calls\":[\x7b\"index\":0,\"function\":\x7b\x7d\x7d]\x7d\x7d]\x7d\n"))] =
      [] := rfl

/-- C4 (amended): for every stream whose processing does not hit the
tool-fragment panic (C9), exactly one `FinalResponse` is emitted, as the last
event; its usage snapshot equals the most recently received usage object
verbatim, or the all-zero snapshot if no successfully parsed frame carried a
usage object. -/
theorem C4_single_final_response_last_usage (cfg : MergeConfig)
    (chunks : List RawChunk) (items : List StreamItem) (ls : LoopSt)
    (h : processChunks cfg initLoopSt chunks = (items, some ls)) :
    ∃ l, streamEvents cfg chunks =
        l ++ [Except.ok (RawStreamingChoice.finalResponse (lastUsageOf chunks))] ∧
      ∀ it ∈ l, isFinalItem it = false := by
  have hst2 : (processChunks cfg initLoopSt chunks).2 = some ls := by rw [h]
  rw [processChunks_state2_eq cfg chunks initLoopSt] at hst2
  have hmap : ((processLines cfg ⟨none, initSt⟩
      ((goodTexts chunks).map linesRust).flatten).2).map LoopSt.st = some ls.st := by
    rw [show (⟨none, initSt⟩ : LoopSt) = initLoopSt from rfl, hst2]
    rfl
  rw [processLines_state_eq_frames cfg _ none initSt] at hmap
  rcases hff : foldFrames cfg initSt
      (framesOfLines none ((goodTexts chunks).map linesRust).flatten) with ⟨i2, o2⟩
  rw [hff] at hmap
  dsimp only at hmap
  obtain ⟨hfu, -, -⟩ := foldFrames_state_facts cfg
    (framesOfLines none ((goodTexts chunks).map linesRust).flatten) initSt i2 ls.st
    (by rw [hff, hmap])
  have husage : ls.st.final_usage = lastUsageOf chunks := by
    unfold lastUsageOf framesOfStream
    exact hfu
  refine ⟨items ++ (mergeFlush cfg ls.st ++ callsFlush ls.st.calls), ?_, ?_⟩
  · unfold streamEvents
    rw [h]
    dsimp only
    unfold finishStream
    rw [husage]
    simp [List.append_assoc]
  · intro it hit
    rcases List.mem_append.mp hit with hm | hm
    · have := processChunks_items_not_final cfg chunks initLoopSt
      rw [h] at this
      exact this it hm
    · rcases List.mem_append.mp hm with hm2 | hm2
      · exact mergeFlush_items_not_final cfg ls.st it hm2
      · exact callsFlush_items_not_final ls.st.calls it hm2

set_option maxRecDepth 10000 in
/-- Witness for C4's amended statement at a concrete stream carrying two
usage frames (the later one wins). -/
theorem C4_witness :
    lastUsageOf
      [Except.ok (asciiBytes
        ("data: \x7b\"choices\":[],\"usage\":\x7b\"prompt_tokens\":1,\"total_tokens\":2\x7d\x7d\n" ++
         "data: \x7b\"choices\":[],\"usage\":\x7b\"prompt_tokens\":3,\"total_tokens\":9\x7d\x7d\n"))] =
      ⟨3, 9⟩ ∧
    ∃ l, streamEvents ⟨true, "think"⟩
        [Except.ok (asciiBytes
          ("data: \x7b\"choices\":[],\"usage\":\x7b\"prompt_tokens\":1,\"total_tokens\":2\x7d\x7d\n" ++
           "data: \x7b\"choices\":[],\"usage\":\x7b\"prompt_tokens\":3,\"total_tokens\":9\x7d\x7d\n"))] =
        l ++ [Except.ok (RawStreamingChoice.finalResponse (lastUsageOf
          [Except.ok (asciiBytes
            ("data: \x7b\"choices\":[],\"usage\":\x7b\"prompt_tokens\":1,\"total_tokens\":2\x7d\x7d\n" ++
             "data: \x7b\"choices\":[],\"usage\":\x7b\"prompt_tokens\":3,\"total_tokens\":9\x7d\x7d\n"))]))] ∧
      ∀ it ∈ l, isFinalItem it = false :=
  ⟨rfl,
    C4_single_final_response_last_usage ⟨true, "think"⟩ _ []
      ⟨none, ⟨⟨3, 9⟩, [], "", "", false⟩⟩ rfl⟩

end RigStreaming
